import Mathlib

/-!
Verification of the C-type model and backend-type construction protocol of
the `ffi` package (files `ffi/model.py` and `ffi/api.py`).

The embedding is shallow.  A logical type node (`BaseType` subclass
instance) becomes a value of the inductive type `CType`; the Python
attributes of each class become the constructor's fields.  `FunctionType`
argument sequences are represented by the mutually inductive `CTypeList`
(isomorphic to `List CType`; the mutual form lets Lean derive decidable
equality), and the possibly-absent field-type list of `StructOrUnion` by
`CFields`.

The cyclic object graphs the parser can build (a struct whose field refers
back to the struct itself) cannot be literal inductive values.  They do not
need to be: Python dict lookup on `_cached_btypes` compares keys with
`BaseType.__eq__`, and for `StructOrUnion` `_attrs_ = ('name',)`, so the
cache key of an aggregate is just its class and tag name.  A back-reference
inside a field list is therefore embedded as a fresh `structT` node with the
same kind and tag (and empty attributes): every cache lookup treats it
exactly as Python treats the original object, and its own field data is
never read on the paths exercised here because the lookup hits the cache.
-/

mutual

/-- Logical Type Nodes: one constructor per concrete `BaseType` subclass of
`ffi/model.py`.  `structT false` is `StructType`, `structT true` is
`UnionType`.  `arrayT` holds the *stored* `item` attribute (which
`ArrayType.__init__` makes a `PointerType`; see `mkArrayType`).  `func`'s
first field is the linkage `name` attribute (absent from
`FunctionType._attrs_`). -/
inductive CType where
  | void
  | primitive (name : String)
  | pointer (totype : CType)
  | arrayT (item : CType) (length : Option Int)
  | structT (isUnion : Bool) (name : String) (fldnames : Option (List String))
      (fldtypes : CFields) (fldbitsize : Option (List (Option Int)))
  | enum (name : String) (enumerators : List String) (enumvalues : List Int)
  | func (name : Option String) (args : CTypeList) (result : CType) (ellipsis : Bool)

/-- A sequence of type nodes (`FunctionType.args`, `StructOrUnion.fldtypes`). -/
inductive CTypeList where
  | nil
  | cons (hd : CType) (tl : CTypeList)

/-- `StructOrUnion.fldtypes`: either `None` (opaque aggregate) or a list. -/
inductive CFields where
  | noneF
  | someF (l : CTypeList)

end

deriving instance DecidableEq for CType, CTypeList, CFields

mutual

/-- `BaseType.__eq__`: `self.__class__ == other.__class__ and
self._get_items() == other._get_items()`, where `_get_items` reads only the
attributes named in `_attrs_`.  `StructOrUnion._attrs_` and
`EnumType._attrs_` are `('name',)`, so field and enumerator data is not
compared; `FunctionType._attrs_` is `('args','result','ellipsis')`, so the
linkage name is not compared.  Sub-node attributes compare recursively with
`__eq__` itself. -/
def pyEq : CType → CType → Bool
  | .void, .void => true
  | .primitive n, .primitive n' => n == n'
  | .pointer t, .pointer t' => pyEq t t'
  | .arrayT i l, .arrayT i' l' => pyEq i i' && l == l'
  | .structT iu n _ _ _, .structT iu' n' _ _ _ => iu == iu' && n == n'
  | .enum n _ _, .enum n' _ _ => n == n'
  | .func _ as r e, .func _ as' r' e' => pyEqList as as' && pyEq r r' && e == e'
  | _, _ => false

/-- Elementwise `__eq__` on a sequence attribute (Python list/tuple `==`). -/
def pyEqList : CTypeList → CTypeList → Bool
  | .nil, .nil => true
  | .cons a as, .cons b bs => pyEq a b && pyEqList as bs
  | _, _ => false

end

/-- `BaseType.__ne__`: `not self == other`. -/
def pyNe (a b : CType) : Bool := !(pyEq a b)

mutual

/-- The projection of a node to the data `__eq__` and `__hash__` actually
consult: its class together with its `_attrs_` values, each sub-node
projected recursively.  Attributes outside `_attrs_` are erased (struct
field data, enum enumerator data, function linkage name).  Two nodes are
dict-key-equivalent exactly when their projections coincide
(`pyEq_iff_pkey`), so the backend-type cache is keyed by this projection. -/
def pkey : CType → CType
  | .void => .void
  | .primitive n => .primitive n
  | .pointer t => .pointer (pkey t)
  | .arrayT i l => .arrayT (pkey i) l
  | .structT iu n _ _ _ => .structT iu n none .noneF none
  | .enum n _ _ => .enum n [] []
  | .func _ as r e => .func none (pkeyList as) (pkey r) e

/-- `pkey` on a sequence of nodes. -/
def pkeyList : CTypeList → CTypeList
  | .nil => .nil
  | .cons t ts => .cons (pkey t) (pkeyList ts)

end

/-- The concrete `BaseType` subclasses, i.e. the class objects that
`__eq__` compares and `__hash__` hashes. -/
inductive PyCls where
  | voidC | primitiveC | pointerC | arrayC | structC | unionC | enumC | functionC
  deriving DecidableEq

/-- The attribute names appearing in any `_attrs_` tuple of `ffi/model.py`
(the first components of the `_get_items()` pairs). -/
inductive AttrName where
  | nameA | totypeA | itemA | lengthA | argsA | resultA | ellipsisA
  deriving DecidableEq

mutual

/-- The structure `BaseType.__hash__` feeds to Python's `hash`:
`(self.__class__, tuple(self._get_items()))`, with sub-nodes replaced by
their own hash input (Python hashes a tuple by hashing its members, and a
member node by calling its `__hash__`, which recurses the same way). -/
inductive HVal where
  | str (s : String)
  | int (i : Int)
  | bool (b : Bool)
  | noneV
  | cls (c : PyCls) (items : HItems)
  | tup (elems : HVals)

/-- The named-attribute tuple `tuple(self._get_items())` inside a hash input. -/
inductive HItems where
  | nil
  | cons (attr : AttrName) (v : HVal) (tl : HItems)

/-- A plain tuple of hash inputs (a `FunctionType` argument tuple). -/
inductive HVals where
  | nil
  | cons (v : HVal) (tl : HVals)

end

deriving instance DecidableEq for HVal, HItems, HVals

/-- Hash input of an `int`-or-`None` attribute (array length, bit size). -/
def optIntHV : Option Int → HVal
  | none => .noneV
  | some i => .int i

mutual

/-- `BaseType.__hash__`'s input `(self.__class__, tuple(self._get_items()))`
for every node class, following each class's `_attrs_`. -/
def hashKey : CType → HVal
  | .void => .cls .voidC .nil
  | .primitive n => .cls .primitiveC (.cons .nameA (.str n) .nil)
  | .pointer t => .cls .pointerC (.cons .totypeA (hashKey t) .nil)
  | .arrayT i l =>
      .cls .arrayC (.cons .itemA (hashKey i) (.cons .lengthA (optIntHV l) .nil))
  | .structT false n _ _ _ => .cls .structC (.cons .nameA (.str n) .nil)
  | .structT true n _ _ _ => .cls .unionC (.cons .nameA (.str n) .nil)
  | .enum n _ _ => .cls .enumC (.cons .nameA (.str n) .nil)
  | .func _ as r e =>
      .cls .functionC (.cons .argsA (.tup (hashKeyList as))
        (.cons .resultA (hashKey r) (.cons .ellipsisA (.bool e) .nil)))

/-- `hashKey` of each member of an argument tuple. -/
def hashKeyList : CTypeList → HVals
  | .nil => .nil
  | .cons t ts => .cons (hashKey t) (hashKeyList ts)

end

/-- Errors surfaced by the embedded operations.  `noneFields` is the
`TypeError` Python raises when `StructOrUnion.prepare_backend_type` iterates
a `fldtypes` that is `None`; `typeError` is the explicit `TypeError` raised
by `FFI.callback`; `attributeError` is the library proxy's unknown-symbol
error; `outOfFuel` is an artifact of the embedding (the Python recursion has
no such bound) and never occurs on the runs the theorems compute;
`internal` marks argument shapes the Python dispatch can never produce. -/
inductive Err where
  | outOfFuel
  | noneFields
  | typeError
  | attributeError (name : String)
  | internal
  deriving DecidableEq

/-- One invocation of the external backend (or backend library), recorded in
order: the observable effect trace of the core on its collaborator. -/
inductive BackendCall where
  | newVoid
  | newPrimitive (name : String)
  | newPointer (item : Nat)
  | newArray (item : Nat) (length : Option Int)
  | newStruct (name : String)
  | newUnion (name : String)
  | newEnum (name : String) (enumerators : List String) (enumvalues : List Int)
  | newFunction (args : List Nat) (result : Nat) (ellipsis : Bool)
  | completeStructOrUnion (btype : Nat) (fldtypes : List Nat)
  | loadFunction (btype : Nat) (name : String)
  | readVariable (btype : Nat) (name : String)
  | writeVariable (btype : Nat) (name : String) (value : Int)
  | getErrno
  | setErrno (value : Int)
  | newCallback (btype : Nat) (pycb : Nat)
  deriving DecidableEq

/-- The mutable state of one `FFI` instance together with the modelled
backend.  Backend Type Handles are the `Nat`s handed out by `nextHandle`.

* `cache` is `ffi._cached_btypes`, keyed by the `pkey` projection of a node
  (Python keys the dict by `__hash__`/`__eq__`, which consult exactly that
  projection);
* `completed` records the aggregate handles on which the backend's
  `complete_struct_or_union` has run (a struct handle outside it is still
  incomplete);
* `created` is bookkeeping for the memoization invariant: the cache key of
  every node for which a backend *type constructor* has been invoked, in
  order;
* `log` is the full trace of backend invocations;
* `errnoVal` is the backend's thread-local error code (`get_errno` /
  `set_errno`);
* `mem` is the live memory of named library variables (`read_variable` /
  `write_variable`), newest binding first;
* `nextFn` numbers the opaque values returned by `load_function` and
  `callback`;
* `parsedTypes` is `ffi._parsed_types` (type-name string to handle);
* `decls` is the external parser's `_declarations` table, keyed by
  `"function " + name` / `"variable " + name`. -/
structure FFIState where
  cache : List (CType × Nat)
  nextHandle : Nat
  completed : List Nat
  created : List CType
  log : List BackendCall
  errnoVal : Int
  mem : List (String × Int)
  nextFn : Nat
  parsedTypes : List (String × Nat)
  decls : List (String × CType)
  deriving DecidableEq

/-- Association-list lookup, newest binding first (a Python dict read). -/
def lookupA {α : Type} [DecidableEq α] {β : Type} : List (α × β) → α → Option β
  | [], _ => none
  | (k, v) :: rest, key => if key = k then some v else lookupA rest key

/-- `type in ffi._cached_btypes` / `ffi._cached_btypes[type]`: the dict is
keyed by the node's class and `_attrs_`, i.e. by `pkey`. -/
def cacheLook (st : FFIState) (t : CType) : Option Nat :=
  lookupA st.cache (pkey t)

/-- `ffi._cached_btypes[type] = BType`. -/
def cacheIns (st : FFIState) (t : CType) (bt : Nat) : FFIState :=
  { st with cache := (pkey t, bt) :: st.cache }

/-- A fresh Backend Type Handle from one backend type-constructor call for
the node `t` (records the call and the node's cache key). -/
def freshBType (st : FFIState) (t : CType) (call : BackendCall) : Nat × FFIState :=
  (st.nextHandle,
   { st with
      nextHandle := st.nextHandle + 1
      log := st.log ++ [call]
      created := pkey t :: st.created })

/-- `BaseType.new_backend_type` as each subclass implements it: one backend
type-constructor call, consuming the dependency handles `prepare` produced.
`StructOrUnion` overrides `finish_backend_type`, so no struct node ever
reaches this dispatch; argument shapes that the Python call protocol cannot
produce yield `internal`. -/
def newBackendType (st : FFIState) (t : CType) (args : List Nat) :
    Except Err Nat × FFIState :=
  match t, args with
  | .void, [] =>
      let (h, st) := freshBType st .void .newVoid
      (.ok h, st)
  | .primitive n, [] =>
      let (h, st) := freshBType st (.primitive n) (.newPrimitive n)
      (.ok h, st)
  | .pointer tt, [bitem] =>
      let (h, st) := freshBType st (.pointer tt) (.newPointer bitem)
      (.ok h, st)
  | .arrayT it l, [bitem] =>
      let (h, st) := freshBType st (.arrayT it l) (.newArray bitem l)
      (.ok h, st)
  | .enum n es vs, [] =>
      let (h, st) := freshBType st (.enum n es vs) (.newEnum n es vs)
      (.ok h, st)
  | .func nm as r e, bresult :: bargs =>
      let (h, st) := freshBType st (.func nm as r e) (.newFunction bargs bresult e)
      (.ok h, st)
  | _, _ => (.error .internal, st)

/-- The first two lines of `StructOrUnion.prepare_backend_type`:
`BType = self.get_btype(ffi)` (the backend's `new_struct_type` /
`new_union_type`, yielding an *incomplete* handle) followed immediately by
`ffi._cached_btypes[self] = BType` — the insertion that happens before any
field type is resolved. -/
def structEnter (st : FFIState) (iu : Bool) (nm : String) : Nat × FFIState :=
  let t : CType := .structT iu nm none .noneF none
  let (bt, st) := freshBType st t (if iu then .newUnion nm else .newStruct nm)
  (bt, cacheIns st t bt)

/-- `finish_backend_type`.  For `StructOrUnion`: ask the backend to
`complete_struct_or_union` the incomplete handle (the first prepared
argument) with the field handles, and return it.  For every other class
(`BaseType.finish_backend_type`): re-check the cache (`try:
return ffi._cached_btypes[self]`) and only on a miss invoke
`new_backend_type`. -/
def finishB (st : FFIState) (t : CType) (args : List Nat) :
    Except Err Nat × FFIState :=
  match t with
  | .structT _ _ _ _ _ =>
      match args with
      | bt :: flds =>
          (.ok bt,
           { st with
              log := st.log ++ [.completeStructOrUnion bt flds]
              completed := bt :: st.completed })
      | [] => (.error .internal, st)
  | _ =>
      match cacheLook st t with
      | some h => (.ok h, st)
      | none => newBackendType st t args

mutual

/-- `FFI._get_cached_btype(type)`: return the cached handle if the node is a
key of `_cached_btypes`; otherwise run `prepare_backend_type`, pass the
prepared arguments to `finish_backend_type`, store the result under the node
and return it.  The `Nat` is recursion fuel, an artifact of the embedding:
every theorem either supplies enough or quantifies over it. -/
def resolve : Nat → FFIState → CType → Except Err Nat × FFIState
  | 0, st, _ => (.error .outOfFuel, st)
  | n + 1, st, t =>
      match cacheLook st t with
      | some h => (.ok h, st)
      | none =>
          match prepareB n st t with
          | (.error e, st₁) => (.error e, st₁)
          | (.ok args, st₁) =>
              match finishB st₁ t args with
              | (.error e, st₂) => (.error e, st₂)
              | (.ok bt, st₂) => (.ok bt, cacheIns st₂ t bt)

/-- `prepare_backend_type` of each class.  Leaf classes (`VoidType`,
`PrimitiveType`, `EnumType`) inherit `BaseType.prepare_backend_type`, which
returns `None` — normalized to `()` by `_get_cached_btype`.  `PointerType`
and `ArrayType` resolve their stored item; `FunctionType` resolves the
result type first and then each argument type; `StructOrUnion` eagerly
creates and caches its incomplete handle (`structEnter`) *before* iterating
`self.fldtypes` (raising `TypeError` when that attribute is `None`). -/
def prepareB : Nat → FFIState → CType → Except Err (List Nat) × FFIState
  | _, st, .void => (.ok [], st)
  | _, st, .primitive _ => (.ok [], st)
  | _, st, .enum _ _ _ => (.ok [], st)
  | 0, st, .pointer _ => (.error .outOfFuel, st)
  | n + 1, st, .pointer tt =>
      match resolve n st tt with
      | (.ok h, st₁) => (.ok [h], st₁)
      | (.error e, st₁) => (.error e, st₁)
  | 0, st, .arrayT _ _ => (.error .outOfFuel, st)
  | n + 1, st, .arrayT it _ =>
      match resolve n st it with
      | (.ok h, st₁) => (.ok [h], st₁)
      | (.error e, st₁) => (.error e, st₁)
  | 0, st, .func _ _ _ _ => (.error .outOfFuel, st)
  | n + 1, st, .func _ as r _ =>
      match resolve n st r with
      | (.error e, st₁) => (.error e, st₁)
      | (.ok hr, st₁) =>
          match resolveList n st₁ as with
          | (.ok hs, st₂) => (.ok (hr :: hs), st₂)
          | (.error e, st₂) => (.error e, st₂)
  | 0, st, .structT iu nm _ _ _ => (.error .outOfFuel, (structEnter st iu nm).2)
  | n + 1, st, .structT iu nm _ fts _ =>
      match fts with
      | .noneF => (.error .noneFields, (structEnter st iu nm).2)
      | .someF l =>
          match resolveList n (structEnter st iu nm).2 l with
          | (.ok hs, st₂) => (.ok ((structEnter st iu nm).1 :: hs), st₂)
          | (.error e, st₂) => (.error e, st₂)

/-- `for tp in ...: args.append(ffi._get_cached_btype(tp))`: resolve a
sequence of dependency nodes left to right, threading the state. -/
def resolveList : Nat → FFIState → CTypeList → Except Err (List Nat) × FFIState
  | _, st, .nil => (.ok [], st)
  | 0, st, .cons _ _ => (.error .outOfFuel, st)
  | n + 1, st, .cons t ts =>
      match resolve n st t with
      | (.error e, st₁) => (.error e, st₁)
      | (.ok h, st₁) =>
          match resolveList n st₁ ts with
          | (.ok hs, st₂) => (.ok (h :: hs), st₂)
          | (.error e, st₂) => (.error e, st₂)

end

/-- `ArrayType.__init__(self, item, length)`: `self.item = PointerType(item)`
— the element is stored wrapped as a `Pointer` node, so array and pointer
share one backend materialization path; `self.length = length`. -/
def mkArrayType (item : CType) (length : Option Int) : CType :=
  .arrayT (.pointer item) length

/-- A freshly constructed `FFI` instance's caches and modelled backend:
everything empty, the first handle 0.  (`errnoVal`, `mem` and `decls` are
quantified over in the theorems that need them.) -/
def initState : FFIState :=
  { cache := [], nextHandle := 0, completed := [], created := [], log := []
    errnoVal := 0, mem := [], nextFn := 0, parsedTypes := [], decls := [] }

/-- `FFI.typeof(cdecl)` on a type-name string: consult `_parsed_types[cdecl]`;
on a miss ask the external parser (`parse`, the collaborator
`self._parser.parse_type`) for the Logical Type Node, resolve it through
`_get_cached_btype` (`type.get_backend_type(self)`), store the handle under
the name, and return it.  (The non-string branch delegates to the backend's
`typeof_instance` and involves no state of this core.) -/
def typeof (parse : String → CType) (fuel : Nat) (st : FFIState) (cdecl : String) :
    Except Err Nat × FFIState :=
  match lookupA st.parsedTypes cdecl with
  | some bt => (.ok bt, st)
  | none =>
      match resolve fuel st (parse cdecl) with
      | (.ok bt, st₁) => (.ok bt, { st₁ with parsedTypes := (cdecl, bt) :: st₁.parsedTypes })
      | (.error e, st₁) => (.error e, st₁)

/-- `FFI.callback(cdecl, python_callable)`: `if not callable(python_callable):
raise TypeError(...)` — checked before anything else; then
`BFunc = self.typeof(cdecl)` and `self._backend.callback(BFunc,
python_callable)`.  `isCallable` is whether the second argument is
invocable; `pycb` identifies it; the returned `Nat` is the backend's
trampoline. -/
def callback (parse : String → CType) (fuel : Nat) (st : FFIState) (cdecl : String)
    (isCallable : Bool) (pycb : Nat) : Except Err Nat × FFIState :=
  if !isCallable then (.error .typeError, st)
  else
    match typeof parse fuel st cdecl with
    | (.ok bfunc, st₁) =>
        (.ok st₁.nextFn,
         { st₁ with nextFn := st₁.nextFn + 1, log := st₁.log ++ [.newCallback bfunc pycb] })
    | (.error e, st₁) => (.error e, st₁)

/-- What one library-proxy attribute read yields: a bound callable
(`load_function`) or a value (`read_variable`, or the backend error code). -/
inductive AttrVal where
  | fn (token : Nat)
  | val (i : Int)
  deriving DecidableEq

/-- `lookupA` with Python's behaviour of reading absent memory as the
backend sees fit; variables unset in `mem` read as 0. -/
def readMem (st : FFIState) (name : String) : Int :=
  (lookupA st.mem name).getD 0

/-- `FFILibrary.__getattribute__(self, name)` of the proxy built by
`_make_ffi_library(ffi, libname)`.  In order: the `errno` special case
(only when `libname is None`, i.e. the implicit default C runtime proxy);
the per-proxy `function_cache`; the declaration table under
`"function " + name` (resolve the type, bind the symbol, cache the bound
callable); the table under `"variable " + name` (resolve the type, read the
live value — never cached); else `AttributeError(name)`.  `fcache` is the
proxy's closure variable `function_cache`; the updated one is returned. -/
def getattr (fuel : Nat) (st : FFIState) (libname : Option String)
    (fcache : List (String × Nat)) (name : String) :
    Except Err AttrVal × FFIState × List (String × Nat) :=
  if libname = none ∧ name = "errno" then
    (.ok (.val st.errnoVal), { st with log := st.log ++ [.getErrno] }, fcache)
  else
    match lookupA fcache name with
    | some v => (.ok (.fn v), st, fcache)
    | none =>
        match lookupA st.decls ("function " ++ name) with
        | some tp =>
            match resolve fuel st tp with
            | (.ok bt, st₁) =>
                (.ok (.fn st₁.nextFn),
                 { st₁ with
                    nextFn := st₁.nextFn + 1
                    log := st₁.log ++ [.loadFunction bt name] },
                 (name, st₁.nextFn) :: fcache)
            | (.error e, st₁) => (.error e, st₁, fcache)
        | none =>
            match lookupA st.decls ("variable " ++ name) with
            | some tp =>
                match resolve fuel st tp with
                | (.ok bt, st₁) =>
                    (.ok (.val (readMem st₁ name)),
                     { st₁ with log := st₁.log ++ [.readVariable bt name] }, fcache)
                | (.error e, st₁) => (.error e, st₁, fcache)
            | none => (.error (.attributeError name), st, fcache)

/-- `FFILibrary.__setattr__(self, name, value)`: the `errno` special case
(again only on the default proxy), else the declaration table under
`"variable " + name` (resolve the type, write the value through the
backend), else `AttributeError(name)`. -/
def setattr (fuel : Nat) (st : FFIState) (libname : Option String)
    (name : String) (value : Int) : Except Err Unit × FFIState :=
  if libname = none ∧ name = "errno" then
    (.ok (), { st with errnoVal := value, log := st.log ++ [.setErrno value] })
  else
    match lookupA st.decls ("variable " ++ name) with
    | some tp =>
        match resolve fuel st tp with
        | (.ok bt, st₁) =>
            (.ok (),
             { st₁ with
                mem := (name, value) :: st₁.mem
                log := st₁.log ++ [.writeVariable bt name value] })
        | (.error e, st₁) => (.error e, st₁)
    | none => (.error (.attributeError name), st)

mutual

/-- Python `==` on two nodes holds exactly when their class-and-`_attrs_`
projections coincide: dict keys are equivalent iff their `pkey`s are equal. -/
theorem pyEq_iff_pkey : (a b : CType) → (pyEq a b = true ↔ pkey a = pkey b)
  | .void, .void => by simp [pyEq, pkey]
  | .primitive _, .primitive _ => by simp [pyEq, pkey]
  | .pointer t, .pointer t' => by simpa [pyEq, pkey] using pyEq_iff_pkey t t'
  | .arrayT i _, .arrayT i' _ => by
      have h := pyEq_iff_pkey i i'
      simp [pyEq, pkey, h]
  | .structT _ _ _ _ _, .structT _ _ _ _ _ => by simp [pyEq, pkey]
  | .enum _ _ _, .enum _ _ _ => by simp [pyEq, pkey]
  | .func _ as r _, .func _ as' r' _ => by
      have h1 := pyEqList_iff_pkeyList as as'
      have h2 := pyEq_iff_pkey r r'
      simp [pyEq, pkey, h1, h2, and_assoc]
  | .void, .primitive _ | .void, .pointer _ | .void, .arrayT _ _
  | .void, .structT _ _ _ _ _ | .void, .enum _ _ _ | .void, .func _ _ _ _
  | .primitive _, .void | .primitive _, .pointer _ | .primitive _, .arrayT _ _
  | .primitive _, .structT _ _ _ _ _ | .primitive _, .enum _ _ _
  | .primitive _, .func _ _ _ _
  | .pointer _, .void | .pointer _, .primitive _ | .pointer _, .arrayT _ _
  | .pointer _, .structT _ _ _ _ _ | .pointer _, .enum _ _ _
  | .pointer _, .func _ _ _ _
  | .arrayT _ _, .void | .arrayT _ _, .primitive _ | .arrayT _ _, .pointer _
  | .arrayT _ _, .structT _ _ _ _ _ | .arrayT _ _, .enum _ _ _
  | .arrayT _ _, .func _ _ _ _
  | .structT _ _ _ _ _, .void | .structT _ _ _ _ _, .primitive _
  | .structT _ _ _ _ _, .pointer _ | .structT _ _ _ _ _, .arrayT _ _
  | .structT _ _ _ _ _, .enum _ _ _ | .structT _ _ _ _ _, .func _ _ _ _
  | .enum _ _ _, .void | .enum _ _ _, .primitive _ | .enum _ _ _, .pointer _
  | .enum _ _ _, .arrayT _ _ | .enum _ _ _, .structT _ _ _ _ _
  | .enum _ _ _, .func _ _ _ _
  | .func _ _ _ _, .void | .func _ _ _ _, .primitive _
  | .func _ _ _ _, .pointer _ | .func _ _ _ _, .arrayT _ _
  | .func _ _ _ _, .structT _ _ _ _ _ | .func _ _ _ _, .enum _ _ _ => by
      simp [pyEq, pkey]

/-- Elementwise version of `pyEq_iff_pkey`. -/
theorem pyEqList_iff_pkeyList : (as bs : CTypeList) →
    (pyEqList as bs = true ↔ pkeyList as = pkeyList bs)
  | .nil, .nil => by simp [pyEqList, pkeyList]
  | .cons a as, .cons b bs => by
      have h1 := pyEq_iff_pkey a b
      have h2 := pyEqList_iff_pkeyList as bs
      simp [pyEqList, pkeyList, h1, h2]
  | .nil, .cons _ _ | .cons _ _, .nil => by simp [pyEqList, pkeyList]

end

mutual

/-- The hash input reads exactly the class-and-`_attrs_` data: projecting a
node with `pkey` does not change it. -/
theorem hashKey_pkey : (a : CType) → hashKey (pkey a) = hashKey a
  | .void => rfl
  | .primitive _ => rfl
  | .pointer t => by simp [pkey, hashKey, hashKey_pkey t]
  | .arrayT i _ => by simp [pkey, hashKey, hashKey_pkey i]
  | .structT iu _ _ _ _ => by cases iu <;> simp [pkey, hashKey]
  | .enum _ _ _ => rfl
  | .func _ as r _ => by
      simp [pkey, hashKey, hashKey_pkey r, hashKeyList_pkeyList as]

/-- Elementwise version of `hashKey_pkey`. -/
theorem hashKeyList_pkeyList : (as : CTypeList) →
    hashKeyList (pkeyList as) = hashKeyList as
  | .nil => rfl
  | .cons a as => by
      simp [pkeyList, hashKeyList, hashKey_pkey a, hashKeyList_pkeyList as]

end

/-- Decode the hash input of an `int`-or-`None` attribute. -/
def unOptInt : HVal → Option (Option Int)
  | .noneV => some none
  | .int i => some (some i)
  | _ => none

mutual

/-- Partial inverse of `hashKey` up to `pkey`: recovers the projection of a
node from its hash input (`unhash_hashKey`).  Its existence shows the hash
input determines the dict key, i.e. nodes hash identically only when they
are `__eq__`-equal. -/
def unhash : HVal → Option CType
  | .cls .voidC .nil => some .void
  | .cls .primitiveC (.cons .nameA (.str n) .nil) => some (.primitive n)
  | .cls .pointerC (.cons .totypeA v .nil) =>
      match unhash v with
      | some t => some (.pointer t)
      | none => none
  | .cls .arrayC (.cons .itemA v (.cons .lengthA lv .nil)) =>
      match unhash v, unOptInt lv with
      | some t, some l => some (.arrayT t l)
      | _, _ => none
  | .cls .structC (.cons .nameA (.str n) .nil) =>
      some (.structT false n none .noneF none)
  | .cls .unionC (.cons .nameA (.str n) .nil) =>
      some (.structT true n none .noneF none)
  | .cls .enumC (.cons .nameA (.str n) .nil) => some (.enum n [] [])
  | .cls .functionC
      (.cons .argsA (.tup vs) (.cons .resultA rv (.cons .ellipsisA (.bool e) .nil))) =>
      match unhashVals vs, unhash rv with
      | some as, some r => some (.func none as r e)
      | _, _ => none
  | _ => none

/-- Elementwise version of `unhash`. -/
def unhashVals : HVals → Option CTypeList
  | .nil => some .nil
  | .cons v vs =>
      match unhash v, unhashVals vs with
      | some t, some ts => some (.cons t ts)
      | _, _ => none

end

mutual

/-- `unhash` recovers the `pkey` projection from the hash input. -/
theorem unhash_hashKey : (a : CType) → unhash (hashKey a) = some (pkey a)
  | .void => rfl
  | .primitive _ => rfl
  | .pointer t => by simp [hashKey, unhash, unhash_hashKey t, pkey]
  | .arrayT i l => by
      cases l <;> simp [hashKey, unhash, unhash_hashKey i, pkey, optIntHV, unOptInt]
  | .structT iu _ _ _ _ => by cases iu <;> simp [hashKey, unhash, pkey]
  | .enum _ _ _ => rfl
  | .func _ as r _ => by
      simp [hashKey, unhash, unhash_hashKey r, unhashVals_hashKeyList as, pkey]

/-- Elementwise version of `unhash_hashKey`. -/
theorem unhashVals_hashKeyList : (as : CTypeList) →
    unhashVals (hashKeyList as) = some (pkeyList as)
  | .nil => rfl
  | .cons a as => by
      simp [hashKeyList, unhashVals, unhash_hashKey a, unhashVals_hashKeyList as, pkeyList]

end

/-- Two nodes have identical hash inputs exactly when their dict-key
projections coincide. -/
theorem hashKey_eq_iff_pkey (a b : CType) : hashKey a = hashKey b ↔ pkey a = pkey b := by
  constructor
  · intro h
    have := congrArg unhash h
    rw [unhash_hashKey, unhash_hashKey] at this
    exact Option.some.inj this
  · intro h
    rw [← hashKey_pkey a, ← hashKey_pkey b, h]

deriving instance DecidableEq for Except

/-- Looking up the key just inserted finds the inserted handle. -/
theorem cacheLook_cacheIns_self (st : FFIState) (t : CType) (bt : Nat) :
    cacheLook (cacheIns st t bt) t = some bt := by
  simp [cacheLook, cacheIns, lookupA]

/-- Two `__eq__`-equal nodes are the same cache key. -/
theorem cacheLook_congr (st : FFIState) {t t' : CType} (h : pyEq t t' = true) :
    cacheLook st t = cacheLook st t' := by
  unfold cacheLook
  rw [(pyEq_iff_pkey t t').mp h]

/-- The cache only ever grows, and a key's handle never changes: every
binding visible in `st` is still visible, with the same handle, in `st'`. -/
def mono (st st' : FFIState) : Prop :=
  ∀ k v, lookupA st.cache k = some v → lookupA st'.cache k = some v

theorem mono_refl (st : FFIState) : mono st st := fun _ _ h => h

theorem mono_trans {a b c : FFIState} (h1 : mono a b) (h2 : mono b c) : mono a c :=
  fun k v h => h2 k v (h1 k v h)

/-- Inserting a binding that is fresh, or that repeats the key's existing
handle, preserves every visible binding. -/
theorem mono_cacheIns (st : FFIState) (t : CType) (bt : Nat)
    (h : cacheLook st t = none ∨ cacheLook st t = some bt) :
    mono st (cacheIns st t bt) := by
  intro k v hk
  show (if k = pkey t then some bt else lookupA st.cache k) = some v
  by_cases hkk : k = pkey t
  · rw [if_pos hkk]
    rw [hkk] at hk
    simp only [cacheLook] at h
    rcases h with h | h
    · rw [h] at hk; cases hk
    · rw [h] at hk; exact hk
  · rw [if_neg hkk]; exact hk

/-- The memoization bookkeeping invariant: no node key has had a backend
type constructor invoked for it twice, and every key a constructor ran for
is bound in the cache. -/
def GOOD (st : FFIState) : Prop :=
  st.created.Nodup ∧ ∀ k ∈ st.created, (lookupA st.cache k).isSome = true

theorem GOOD_initState : GOOD initState := by
  constructor
  · simp [initState]
  · intro k hk
    simp [initState] at hk

/-- A `mono` step keeps every `created` key bound. -/
theorem good_of_mono_created {st st' : FFIState} (hg : GOOD st)
    (hm : mono st st') (hc : st'.created = st.created) : GOOD st' := by
  refine ⟨hc ▸ hg.1, ?_⟩
  intro k hk
  rw [hc] at hk
  have := hg.2 k hk
  rcases Option.isSome_iff_exists.mp this with ⟨v, hv⟩
  exact Option.isSome_iff_exists.mpr ⟨v, hm k v hv⟩

/-- `structEnter` (create the incomplete aggregate handle, insert it) from a
state where the aggregate's key is unbound: the invariant is preserved, the
cache only grows, the new key is bound to the new handle, and that handle is
not yet completed (given it is fresh to `completed`). -/
theorem structEnter_spec (st : FFIState) (iu : Bool) (nm : String)
    (hg : GOOD st)
    (hmiss : lookupA st.cache (.structT iu nm none .noneF none) = none) :
    GOOD (structEnter st iu nm).2 ∧ mono st (structEnter st iu nm).2 ∧
      lookupA (structEnter st iu nm).2.cache (.structT iu nm none .noneF none) =
        some (structEnter st iu nm).1 ∧
      (structEnter st iu nm).2.completed = st.completed ∧
      (structEnter st iu nm).1 = st.nextHandle := by
  have hknotin : (CType.structT iu nm none .noneF none) ∉ st.created := by
    intro hmem
    have := hg.2 _ hmem
    rw [hmiss] at this
    simp at this
  refine ⟨⟨?_, ?_⟩, ?_, ?_, rfl, rfl⟩
  · simp [structEnter, freshBType, cacheIns, pkey]
    exact ⟨hknotin, hg.1⟩
  · intro k hk
    simp [structEnter, freshBType, cacheIns, pkey] at hk ⊢
    rcases hk with hk | hk
    · subst hk
      simp [lookupA]
    · have := hg.2 k hk
      rcases Option.isSome_iff_exists.mp this with ⟨v, hv⟩
      unfold lookupA
      by_cases hkk : k = CType.structT iu nm none .noneF none
      · simp [hkk]
      · rw [if_neg hkk, hv]; simp
  · intro k v hk
    simp [structEnter, freshBType, cacheIns, pkey]
    unfold lookupA
    by_cases hkk : k = CType.structT iu nm none .noneF none
    · subst hkk; rw [hk] at hmiss; cases hmiss
    · rw [if_neg hkk]; exact hk
  · simp [structEnter, freshBType, cacheIns, pkey, lookupA]

/-- A key unbound in the cache never had a constructor invoked for it. -/
theorem notin_created_of_none {st : FFIState} {k : CType} (hg : GOOD st)
    (h : lookupA st.cache k = none) : k ∉ st.created := by
  intro hmem
  have := hg.2 _ hmem
  rw [h] at this
  cases this

/-- A cache read stays `isSome` when a binding is pushed in front. -/
theorem lookupA_cons_isSome {c : List (CType × Nat)} {k : CType} (k₀ : CType) (v₀ : Nat)
    (h : (lookupA c k).isSome = true) : (lookupA ((k₀, v₀) :: c) k).isSome = true := by
  unfold lookupA
  by_cases hk : k = k₀ <;> simp [hk, h]

/-- Inserting never unbinds a `created` key: the invariant survives any
`cacheIns`. -/
theorem good_cacheIns (st : FFIState) (t : CType) (bt : Nat) (hg : GOOD st) :
    GOOD (cacheIns st t bt) :=
  ⟨hg.1, fun k hk => lookupA_cons_isSome _ _ (hg.2 k hk)⟩

/-- Equal caches give `mono` for free. -/
theorem mono_of_cache_eq {st st' : FFIState} (h : st'.cache = st.cache) : mono st st' :=
  fun k v hk => by rw [h]; exact hk

/-- `new_backend_type` dispatch: either the argument shape is one the Python
call protocol produces — then the backend allocates the next fresh handle
and the node's key is recorded as created, the cache untouched — or the
dispatch is impossible and nothing happens. -/
theorem newBackendType_spec (st : FFIState) (t : CType) (args : List Nat)
    {r : Except Err Nat} {st' : FFIState}
    (h : newBackendType st t args = (r, st')) :
    (st' = st ∧ ∃ e, r = .error e) ∨
      (r = .ok st.nextHandle ∧ st'.cache = st.cache ∧
        st'.created = pkey t :: st.created ∧ st'.completed = st.completed ∧
        st'.nextHandle = st.nextHandle + 1) := by
  unfold newBackendType at h
  split at h <;>
    first
    | (left
       refine ⟨?_, ?_⟩
       · cases h; rfl
       · exact ⟨.internal, by cases h; rfl⟩)
    | (right
       simp [freshBType] at h
       obtain ⟨h1, h2⟩ := h
       subst h1; subst h2
       simp [freshBType])

/-- One `finish_backend_type` step followed by `_get_cached_btype`'s final
insertion, from any invariant-respecting state.  `hsb` is what
`prepare_backend_type` guarantees for aggregates: the first prepared
argument is the incomplete handle that is already bound to the node's key. -/
theorem finish_insert_good (st₁ : FFIState) (t : CType) (args : List Nat)
    {r : Except Err Nat} {st₂ : FFIState}
    (hfin : finishB st₁ t args = (r, st₂)) (hg : GOOD st₁)
    (hsb : ∀ iu nm fns fts fbs, t = CType.structT iu nm fns fts fbs →
      ∃ bt hs, args = bt :: hs ∧ cacheLook st₁ t = some bt) :
    (∀ e, r = .error e → GOOD st₂ ∧ mono st₁ st₂) ∧
      (∀ bt, r = .ok bt →
        GOOD (cacheIns st₂ t bt) ∧ mono st₁ (cacheIns st₂ t bt) ∧
          cacheLook (cacheIns st₂ t bt) t = some bt) := by
  cases t
  case structT iu nm fns fts fbs =>
    obtain ⟨bt, hs, hargs, hbound⟩ := hsb iu nm fns fts fbs rfl
    subst hargs
    simp only [finishB] at hfin
    cases hfin
    constructor
    · intro e he; cases he
    · intro bt' hbt'
      cases hbt'
      have hcache : ({ st₁ with
          log := st₁.log ++ [.completeStructOrUnion bt hs],
          completed := bt :: st₁.completed } : FFIState).cache = st₁.cache := rfl
      refine ⟨good_cacheIns _ _ _ (good_of_mono_created hg (mono_of_cache_eq hcache) rfl), ?_, cacheLook_cacheIns_self _ _ _⟩
      refine mono_trans (mono_of_cache_eq hcache) (mono_cacheIns _ _ _ (Or.inr ?_))
      simpa only [cacheLook, hcache] using hbound
  all_goals
  · simp only [finishB] at hfin
    split at hfin
    case _ hsome =>
      cases hfin
      constructor
      · intro e he; cases he
      · intro bt hbt
        cases hbt
        refine ⟨good_cacheIns _ _ _ hg, mono_cacheIns _ _ _ (Or.inr hsome), cacheLook_cacheIns_self _ _ _⟩
    case _ hnone =>
      rcases newBackendType_spec _ _ _ hfin with ⟨hst, e, he⟩ | ⟨hok, hcache, hcr, _, _⟩
      · subst hst
        exact ⟨fun _ _ => ⟨hg, mono_refl _⟩, fun bt hbt => by rw [he] at hbt; cases hbt⟩
      · constructor
        · intro e he; rw [hok] at he; cases he
        · intro bt hbt
          rw [hok] at hbt
          cases hbt
          have hknotin := notin_created_of_none hg hnone
          refine ⟨⟨?_, ?_⟩, ?_, cacheLook_cacheIns_self _ _ _⟩
          · simp [cacheIns, hcr]
            exact ⟨hknotin, hg.1⟩
          · intro k hk
            simp only [cacheIns, hcr] at hk ⊢
            rcases List.mem_cons.mp hk with hk | hk
            · subst hk
              simp [lookupA]
            · have := hg.2 k hk
              rw [hcache]
              exact lookupA_cons_isSome _ _ this
          · refine mono_trans (mono_of_cache_eq hcache) (mono_cacheIns _ _ _ (Or.inl ?_))
            simpa only [cacheLook, hcache] using hnone

mutual

/-- The resolution protocol preserves the memoization invariant, only grows
the cache (never rebinding a key to a different handle), and binds the
resolved node's key to the returned handle. -/
theorem resolve_good : ∀ (n : Nat) (st : FFIState) (t : CType) (r : Except Err Nat)
    (st' : FFIState), resolve n st t = (r, st') → GOOD st →
    GOOD st' ∧ mono st st' ∧ ∀ h, r = .ok h → cacheLook st' t = some h
  | 0, st, t, r, st' => by
      intro hres hg
      simp only [resolve] at hres
      cases hres
      exact ⟨hg, mono_refl _, fun h hh => by cases hh⟩
  | n + 1, st, t, r, st' => by
      intro hres hg
      simp only [resolve] at hres
      split at hres
      case _ h hsome =>
        cases hres
        refine ⟨hg, mono_refl _, fun h' hh => ?_⟩
        injection hh with hh
        exact hh ▸ hsome
      case _ hnone =>
        split at hres
        case _ e st₁ heq =>
          cases hres
          obtain ⟨hg₁, hm₁, -⟩ := prepare_good n st t _ _ heq hg hnone
          exact ⟨hg₁, hm₁, fun h hh => by cases hh⟩
        case _ args st₁ heq =>
          obtain ⟨hg₁, hm₁, hsb⟩ := prepare_good n st t _ _ heq hg hnone
          split at hres
          case _ e st₂ hfin =>
            cases hres
            obtain ⟨herr, -⟩ := finish_insert_good st₁ t args hfin hg₁
              (fun iu nm fns fts fbs ht => hsb iu nm fns fts fbs ht args rfl)
            obtain ⟨hg₂, hm₂⟩ := herr e rfl
            exact ⟨hg₂, mono_trans hm₁ hm₂, fun h hh => by cases hh⟩
          case _ bt st₂ hfin =>
            cases hres
            obtain ⟨-, hok⟩ := finish_insert_good st₁ t args hfin hg₁
              (fun iu nm fns fts fbs ht => hsb iu nm fns fts fbs ht args rfl)
            obtain ⟨hg₂, hm₂, hcl⟩ := hok bt rfl
            refine ⟨hg₂, mono_trans hm₁ hm₂, fun h hh => ?_⟩
            injection hh with hh
            exact hh ▸ hcl

/-- `prepare_backend_type` from a cache-miss state: invariant and
monotonicity are preserved, and for aggregates the prepared argument list
starts with the incomplete handle that is already bound to the node's key
in the state handed to the field resolution. -/
theorem prepare_good : ∀ (n : Nat) (st : FFIState) (t : CType) (r : Except Err (List Nat))
    (st' : FFIState), prepareB n st t = (r, st') → GOOD st → cacheLook st t = none →
    GOOD st' ∧ mono st st' ∧
      ∀ iu nm fns fts fbs, t = .structT iu nm fns fts fbs →
        ∀ args, r = .ok args → ∃ bt hs, args = bt :: hs ∧ cacheLook st' t = some bt
  | n, st, .void, r, st' => by
      intro hres hg _
      simp only [prepareB] at hres
      cases hres
      exact ⟨hg, mono_refl _, fun iu nm fns fts fbs ht => by cases ht⟩
  | n, st, .primitive nm, r, st' => by
      intro hres hg _
      simp only [prepareB] at hres
      cases hres
      exact ⟨hg, mono_refl _, fun iu nm fns fts fbs ht => by cases ht⟩
  | n, st, .enum nm es vs, r, st' => by
      intro hres hg _
      simp only [prepareB] at hres
      cases hres
      exact ⟨hg, mono_refl _, fun iu nm fns fts fbs ht => by cases ht⟩
  | 0, st, .pointer tt, r, st' => by
      intro hres hg _
      simp only [prepareB] at hres
      cases hres
      exact ⟨hg, mono_refl _, fun iu nm fns fts fbs ht => by cases ht⟩
  | n + 1, st, .pointer tt, r, st' => by
      intro hres hg _
      simp only [prepareB] at hres
      split at hres
      case _ h st₁ heq =>
        cases hres
        obtain ⟨hg₁, hm₁, -⟩ := resolve_good n st tt _ _ heq hg
        exact ⟨hg₁, hm₁, fun iu nm fns fts fbs ht => by cases ht⟩
      case _ e st₁ heq =>
        cases hres
        obtain ⟨hg₁, hm₁, -⟩ := resolve_good n st tt _ _ heq hg
        exact ⟨hg₁, hm₁, fun iu nm fns fts fbs ht => by cases ht⟩
  | 0, st, .arrayT it l, r, st' => by
      intro hres hg _
      simp only [prepareB] at hres
      cases hres
      exact ⟨hg, mono_refl _, fun iu nm fns fts fbs ht => by cases ht⟩
  | n + 1, st, .arrayT it l, r, st' => by
      intro hres hg _
      simp only [prepareB] at hres
      split at hres
      case _ h st₁ heq =>
        cases hres
        obtain ⟨hg₁, hm₁, -⟩ := resolve_good n st it _ _ heq hg
        exact ⟨hg₁, hm₁, fun iu nm fns fts fbs ht => by cases ht⟩
      case _ e st₁ heq =>
        cases hres
        obtain ⟨hg₁, hm₁, -⟩ := resolve_good n st it _ _ heq hg
        exact ⟨hg₁, hm₁, fun iu nm fns fts fbs ht => by cases ht⟩
  | 0, st, .func nm as rt e, r, st' => by
      intro hres hg _
      simp only [prepareB] at hres
      cases hres
      exact ⟨hg, mono_refl _, fun iu nm fns fts fbs ht => by cases ht⟩
  | n + 1, st, .func nm as rt e, r, st' => by
      intro hres hg _
      simp only [prepareB] at hres
      split at hres
      case _ e₁ st₁ heq =>
        cases hres
        obtain ⟨hg₁, hm₁, -⟩ := resolve_good n st rt _ _ heq hg
        exact ⟨hg₁, hm₁, fun iu nm fns fts fbs ht => by cases ht⟩
      case _ hr st₁ heq =>
        obtain ⟨hg₁, hm₁, -⟩ := resolve_good n st rt _ _ heq hg
        split at hres
        case _ hs st₂ heq₂ =>
          cases hres
          obtain ⟨hg₂, hm₂⟩ := resolveList_good n st₁ as _ _ heq₂ hg₁
          exact ⟨hg₂, mono_trans hm₁ hm₂, fun iu nm fns fts fbs ht => by cases ht⟩
        case _ e₂ st₂ heq₂ =>
          cases hres
          obtain ⟨hg₂, hm₂⟩ := resolveList_good n st₁ as _ _ heq₂ hg₁
          exact ⟨hg₂, mono_trans hm₁ hm₂, fun iu nm fns fts fbs ht => by cases ht⟩
  | 0, st, .structT iu nm fns fts fbs, r, st' => by
      intro hres hg hnone
      simp only [prepareB] at hres
      cases hres
      obtain ⟨hg₁, hm₁, -, -, -⟩ := structEnter_spec st iu nm hg hnone
      exact ⟨hg₁, hm₁, fun iu' nm' fns' fts' fbs' ht args hargs => by cases hargs⟩
  | n + 1, st, .structT iu nm fns fts fbs, r, st' => by
      intro hres hg hnone
      obtain ⟨hg₁, hm₁, hbound, -, -⟩ := structEnter_spec st iu nm hg hnone
      simp only [prepareB] at hres
      split at hres
      case _ =>
        cases hres
        exact ⟨hg₁, hm₁, fun iu' nm' fns' fts' fbs' ht args hargs => by cases hargs⟩
      case _ l =>
        split at hres
        case _ hs st₂ heq =>
          cases hres
          obtain ⟨hg₂, hm₂⟩ := resolveList_good n (structEnter st iu nm).2 l _ _ heq hg₁
          refine ⟨hg₂, mono_trans hm₁ hm₂, ?_⟩
          intro iu' nm' fns' fts' fbs' ht args hargs
          injection hargs with hargs
          exact ⟨(structEnter st iu nm).1, hs, hargs.symm, hm₂ _ _ hbound⟩
        case _ e₂ st₂ heq =>
          cases hres
          obtain ⟨hg₂, hm₂⟩ := resolveList_good n (structEnter st iu nm).2 l _ _ heq hg₁
          exact ⟨hg₂, mono_trans hm₁ hm₂,
            fun iu' nm' fns' fts' fbs' ht args hargs => by cases hargs⟩

/-- Field/argument sequence resolution preserves the invariant and grows
the cache. -/
theorem resolveList_good : ∀ (n : Nat) (st : FFIState) (ts : CTypeList)
    (r : Except Err (List Nat)) (st' : FFIState),
    resolveList n st ts = (r, st') → GOOD st → GOOD st' ∧ mono st st'
  | n, st, .nil, r, st' => by
      intro hres hg
      simp only [resolveList] at hres
      cases hres
      exact ⟨hg, mono_refl _⟩
  | 0, st, .cons t ts, r, st' => by
      intro hres hg
      simp only [resolveList] at hres
      cases hres
      exact ⟨hg, mono_refl _⟩
  | n + 1, st, .cons t ts, r, st' => by
      intro hres hg
      simp only [resolveList] at hres
      split at hres
      case _ e st₁ heq =>
        cases hres
        obtain ⟨hg₁, hm₁, -⟩ := resolve_good n st t _ _ heq hg
        exact ⟨hg₁, hm₁⟩
      case _ h st₁ heq =>
        obtain ⟨hg₁, hm₁, -⟩ := resolve_good n st t _ _ heq hg
        split at hres
        case _ hs st₂ heq₂ =>
          cases hres
          obtain ⟨hg₂, hm₂⟩ := resolveList_good n st₁ ts _ _ heq₂ hg₁
          exact ⟨hg₂, mono_trans hm₁ hm₂⟩
        case _ e st₂ heq₂ =>
          cases hres
          obtain ⟨hg₂, hm₂⟩ := resolveList_good n st₁ ts _ _ heq₂ hg₁
          exact ⟨hg₂, mono_trans hm₁ hm₂⟩

end

/-- Step 1 of the protocol: a node whose key is cached resolves to the
cached handle immediately, with the state (in particular the backend call
log) untouched. -/
theorem resolve_cacheHit (n : Nat) (st : FFIState) (t : CType) (h : Nat)
    (hsome : cacheLook st t = some h) : resolve (n + 1) st t = (.ok h, st) := by
  simp only [resolve, hsome]

/-- A successful resolution leaves the node's key bound to the returned
handle (no invariant hypothesis needed). -/
theorem resolve_ok_cached : ∀ (n : Nat) (st : FFIState) (t : CType) (h : Nat)
    (st' : FFIState), resolve n st t = (.ok h, st') → cacheLook st' t = some h
  | 0, st, t, h, st' => by
      intro hres
      simp only [resolve] at hres
      cases hres
  | n + 1, st, t, h, st' => by
      intro hres
      simp only [resolve] at hres
      split at hres
      case _ h₀ hsome =>
        cases hres
        exact hsome
      case _ hnone =>
        split at hres
        case _ e st₁ heq => cases hres
        case _ args st₁ heq =>
          split at hres
          case _ e st₂ hfin => cases hres
          case _ bt st₂ hfin =>
            cases hres
            exact cacheLook_cacheIns_self _ _ _

/-- The parts of the facade state the resolution protocol never touches:
the error code, variable memory, function tokens, the parsed-type cache and
the declaration table. -/
def sameFFI (st st' : FFIState) : Prop :=
  st'.errnoVal = st.errnoVal ∧ st'.mem = st.mem ∧ st'.nextFn = st.nextFn ∧
    st'.parsedTypes = st.parsedTypes ∧ st'.decls = st.decls

theorem sameFFI_refl (st : FFIState) : sameFFI st st := ⟨rfl, rfl, rfl, rfl, rfl⟩

theorem sameFFI_trans {a b c : FFIState} (h1 : sameFFI a b) (h2 : sameFFI b c) :
    sameFFI a c := by
  obtain ⟨e1, m1, f1, p1, d1⟩ := h1
  obtain ⟨e2, m2, f2, p2, d2⟩ := h2
  exact ⟨e2.trans e1, m2.trans m1, f2.trans f1, p2.trans p1, d2.trans d1⟩

/-- `finish_backend_type` only touches the resolution fields. -/
theorem finishB_sameFFI (st : FFIState) (t : CType) (args : List Nat)
    {r : Except Err Nat} {st' : FFIState} (h : finishB st t args = (r, st')) :
    sameFFI st st' := by
  cases t
  case structT =>
    simp only [finishB] at h
    split at h <;> (cases h; exact ⟨rfl, rfl, rfl, rfl, rfl⟩)
  all_goals
  · simp only [finishB] at h
    split at h
    · cases h; exact sameFFI_refl _
    · rcases newBackendType_spec _ _ _ h with ⟨hst, -⟩ | h2
      · exact hst ▸ sameFFI_refl _
      · unfold newBackendType at h
        split at h <;> (cases h; exact ⟨rfl, rfl, rfl, rfl, rfl⟩)

mutual

/-- Resolution leaves the non-resolution parts of the state untouched. -/
theorem resolve_sameFFI : ∀ (n : Nat) (st : FFIState) (t : CType)
    (r : Except Err Nat) (st' : FFIState),
    resolve n st t = (r, st') → sameFFI st st'
  | 0, st, t, r, st' => by
      intro hres
      simp only [resolve] at hres
      cases hres
      exact sameFFI_refl _
  | n + 1, st, t, r, st' => by
      intro hres
      simp only [resolve] at hres
      split at hres
      case _ h hsome =>
        cases hres
        exact sameFFI_refl _
      case _ hnone =>
        split at hres
        case _ e st₁ heq =>
          cases hres
          exact prepareB_sameFFI n st t _ _ heq
        case _ args st₁ heq =>
          have h₁ := prepareB_sameFFI n st t _ _ heq
          split at hres
          case _ e st₂ hfin =>
            cases hres
            exact sameFFI_trans h₁ (finishB_sameFFI _ _ _ hfin)
          case _ bt st₂ hfin =>
            cases hres
            exact sameFFI_trans h₁
              (sameFFI_trans (finishB_sameFFI _ _ _ hfin) ⟨rfl, rfl, rfl, rfl, rfl⟩)

/-- `prepare_backend_type` leaves the non-resolution state untouched. -/
theorem prepareB_sameFFI : ∀ (n : Nat) (st : FFIState) (t : CType)
    (r : Except Err (List Nat)) (st' : FFIState),
    prepareB n st t = (r, st') → sameFFI st st'
  | n, st, .void, r, st' => by
      intro h; simp only [prepareB] at h; cases h; exact sameFFI_refl _
  | n, st, .primitive _, r, st' => by
      intro h; simp only [prepareB] at h; cases h; exact sameFFI_refl _
  | n, st, .enum _ _ _, r, st' => by
      intro h; simp only [prepareB] at h; cases h; exact sameFFI_refl _
  | 0, st, .pointer _, r, st' => by
      intro h; simp only [prepareB] at h; cases h; exact sameFFI_refl _
  | n + 1, st, .pointer tt, r, st' => by
      intro h
      simp only [prepareB] at h
      split at h <;> (cases h; exact resolve_sameFFI n st tt _ _ (by assumption))
  | 0, st, .arrayT _ _, r, st' => by
      intro h; simp only [prepareB] at h; cases h; exact sameFFI_refl _
  | n + 1, st, .arrayT it _, r, st' => by
      intro h
      simp only [prepareB] at h
      split at h <;> (cases h; exact resolve_sameFFI n st it _ _ (by assumption))
  | 0, st, .func _ _ _ _, r, st' => by
      intro h; simp only [prepareB] at h; cases h; exact sameFFI_refl _
  | n + 1, st, .func _ as rt _, r, st' => by
      intro h
      simp only [prepareB] at h
      split at h
      case _ e st₁ heq =>
        cases h
        exact resolve_sameFFI n st rt _ _ heq
      case _ hr st₁ heq =>
        have h₁ := resolve_sameFFI n st rt _ _ heq
        split at h <;>
          (cases h; exact sameFFI_trans h₁ (resolveList_sameFFI n st₁ as _ _ (by assumption)))
  | 0, st, .structT iu nm _ _ _, r, st' => by
      intro h
      simp only [prepareB] at h
      cases h
      exact ⟨rfl, rfl, rfl, rfl, rfl⟩
  | n + 1, st, .structT iu nm _ fts _, r, st' => by
      intro h
      simp only [prepareB] at h
      have hse : sameFFI st (structEnter st iu nm).2 := ⟨rfl, rfl, rfl, rfl, rfl⟩
      split at h
      case _ =>
        cases h
        exact hse
      case _ l =>
        split at h <;>
          (cases h;
           exact sameFFI_trans hse
             (resolveList_sameFFI n (structEnter st iu nm).2 l _ _ (by assumption)))

/-- Sequence resolution leaves the non-resolution state untouched. -/
theorem resolveList_sameFFI : ∀ (n : Nat) (st : FFIState) (ts : CTypeList)
    (r : Except Err (List Nat)) (st' : FFIState),
    resolveList n st ts = (r, st') → sameFFI st st'
  | n, st, .nil, r, st' => by
      intro h; simp only [resolveList] at h; cases h; exact sameFFI_refl _
  | 0, st, .cons _ _, r, st' => by
      intro h; simp only [resolveList] at h; cases h; exact sameFFI_refl _
  | n + 1, st, .cons t ts, r, st' => by
      intro h
      simp only [resolveList] at h
      split at h
      case _ e st₁ heq =>
        cases h
        exact resolve_sameFFI n st t _ _ heq
      case _ hd st₁ heq =>
        have h₁ := resolve_sameFFI n st t _ _ heq
        split at h <;>
          (cases h; exact sameFFI_trans h₁ (resolveList_sameFFI n st₁ ts _ _ (by assumption)))

end

/-- The `fldnames` attribute of an aggregate node. -/
def structFldnames : CType → Option (List String)
  | .structT _ _ fns _ _ => fns
  | _ => none

/-- The `fldtypes` attribute of an aggregate node. -/
def structFldtypes : CType → CFields
  | .structT _ _ _ fts _ => fts
  | _ => .noneF

/-- The `fldbitsize` attribute of an aggregate node. -/
def structFldbitsize : CType → Option (List (Option Int))
  | .structT _ _ _ _ fbs => fbs
  | _ => none

/-- The `enumerators` attribute of an enum node. -/
def enumEnumerators : CType → List String
  | .enum _ es _ => es
  | _ => []

/-- The `enumvalues` attribute of an enum node. -/
def enumEnumvalues : CType → List Int
  | .enum _ _ vs => vs
  | _ => []

/-- Two `StructType` nodes with the same tag but different field names,
field types and field bitsizes. -/
def c1s1 : CType :=
  .structT false "s" (some ["x"]) (.someF (.cons (.primitive "int") .nil)) (some [none])

/-- See `c1s1`. -/
def c1s2 : CType :=
  .structT false "s" (some ["y"]) (.someF (.cons (.primitive "long") .nil)) (some [some 3])

/-- Two `EnumType` nodes with the same tag but different enumerators. -/
def c1e1 : CType := .enum "e" ["A"] [0]

/-- See `c1e1`. -/
def c1e2 : CType := .enum "e" ["B"] [1]

/-- C1, counterexample: two `StructType` nodes with the same tag name but
different field-names, field-types and field-bitsizes are `__eq__`-equal and
have identical hash inputs, and likewise two `EnumType` nodes with the same
tag but different enumerator names and values — refuting the claim that
aggregate equality requires the field data (and enum equality the enumerator
data) to match. -/
theorem C1_counterexample :
    (pyEq c1s1 c1s2 = true ∧ hashKey c1s1 = hashKey c1s2 ∧
      structFldnames c1s1 ≠ structFldnames c1s2 ∧
      structFldtypes c1s1 ≠ structFldtypes c1s2 ∧
      structFldbitsize c1s1 ≠ structFldbitsize c1s2) ∧
    (pyEq c1e1 c1e2 = true ∧ hashKey c1e1 = hashKey c1e2 ∧
      enumEnumerators c1e1 ≠ enumEnumerators c1e2 ∧
      enumEnumvalues c1e1 ≠ enumEnumvalues c1e2) := by
  constructor
  · exact ⟨by decide, by decide, by decide, by decide, by decide⟩
  · exact ⟨by decide, by decide, by decide, by decide⟩

/-- C1 (amended): two Logical Type Node instances are `__eq__`-equal, and
feed identical inputs to `hash`, exactly when they have the same class and
the same `_attrs_` tuple compared recursively by value — where
`StructOrUnion._attrs_` and `EnumType._attrs_` consist of the tag name only
and `FunctionType._attrs_` omits the linkage name (`pkey` is precisely that
class-and-`_attrs_` projection). -/
theorem C1_structural_identity (a b : CType) :
    (pyEq a b = true ↔ hashKey a = hashKey b) ∧
      (pyEq a b = true ↔ pkey a = pkey b) :=
  ⟨(pyEq_iff_pkey a b).trans (hashKey_eq_iff_pkey a b).symm, pyEq_iff_pkey a b⟩

/-- `struct Node { struct Node *next; };` as the parser's cyclic object
graph embeds here: the back-reference inside the field list is a node with
the same class and tag (hence the same cache key) as the enclosing struct;
see the header comment. -/
def selfRef (nm : String) : CType :=
  .structT false nm (some ["next"])
    (.someF (.cons (.pointer (.structT false nm none .noneF none)) .nil)) (some [none])

/-- C2: (1) resolving a node whose key is cached returns the cached handle
with the state untouched (the cycle-breaking step); (2) for every aggregate
node, `prepare_backend_type` creates the backend handle and inserts it into
`_cached_btypes` *before* any field type is resolved: the state handed to
the field resolution already binds the aggregate's key to the new handle,
which is still incomplete; (3) concretely, resolving `struct Node { struct
Node *next; }` from a fresh state terminates with handle 0, the backend
trace shows the pointer constructor receiving the enclosing struct's own
(then still incomplete) handle 0 before `complete_struct_or_union` runs,
and the pointer-to-self field's handle 1 is the cached pointer handle. -/
theorem C2_cycle_safety :
    (∀ (n : Nat) (st : FFIState) (t : CType) (h : Nat),
        cacheLook st t = some h → resolve (n + 1) st t = (.ok h, st)) ∧
    (∀ (n : Nat) (st : FFIState) (iu : Bool) (nm : String) (fns : Option (List String))
        (l : CTypeList) (fbs : Option (List (Option Int))),
        cacheLook (structEnter st iu nm).2 (.structT iu nm fns (.someF l) fbs) =
            some (structEnter st iu nm).1 ∧
          ((structEnter st iu nm).2.completed = st.completed ∧
            (structEnter st iu nm).1 = st.nextHandle) ∧
          prepareB (n + 1) st (.structT iu nm fns (.someF l) fbs) =
            (match resolveList n (structEnter st iu nm).2 l with
             | (.ok hs, st₂) => (.ok ((structEnter st iu nm).1 :: hs), st₂)
             | (.error e, st₂) => (.error e, st₂))) ∧
    ((resolve 10 initState (selfRef "Node")).1 = .ok 0 ∧
      (resolve 10 initState (selfRef "Node")).2.log =
        [.newStruct "Node", .newPointer 0, .completeStructOrUnion 0 [1]] ∧
      cacheLook (resolve 10 initState (selfRef "Node")).2 (.pointer (selfRef "Node")) =
        some 1 ∧
      cacheLook (resolve 10 initState (selfRef "Node")).2 (selfRef "Node") = some 0 ∧
      (resolve 10 initState (selfRef "Node")).2.completed = [0]) := by
  refine ⟨resolve_cacheHit, ?_, rfl, by decide, by decide, by decide, by decide⟩
  intro n st iu nm fns l fbs
  refine ⟨?_, ⟨rfl, rfl⟩, rfl⟩
  simp [structEnter, freshBType, cacheIns, cacheLook, pkey, lookupA]

/-- An opaque (forward-declared) aggregate: all three field lists `None`. -/
def opaqueNode : CType := .structT false "op" none .noneF none

/-- A struct whose single field's type is an opaque struct, so resolving the
field raises the `TypeError` of iterating `fldtypes = None`. -/
def leakStruct : CType :=
  .structT false "s" (some ["f"]) (.someF (.cons opaqueNode .nil)) (some [none])

/-- C3, behaviour of the code at the failing input: resolving `leakStruct`
from a fresh state aborts with the field-resolution error (the `TypeError`
from the opaque field type), yet afterwards `_cached_btypes` still maps
`leakStruct` to the incomplete handle 0 — `completed` is empty, no
`complete_struct_or_union` ever ran — and a later resolution of the same
struct silently returns that permanently-incomplete handle from the cache.
This contradicts the claim that after such a failure the backend-type cache
does not map the aggregate to an incomplete handle. -/
theorem C3_code_behavior :
    (resolve 10 initState leakStruct).1 = .error .noneFields ∧
    cacheLook (resolve 10 initState leakStruct).2 leakStruct = some 0 ∧
    (resolve 10 initState leakStruct).2.completed = [] ∧
    (resolve 10 initState leakStruct).2.log = [.newStruct "s", .newStruct "op"] ∧
    resolve 1 (resolve 10 initState leakStruct).2 leakStruct =
      (.ok 0, (resolve 10 initState leakStruct).2) := by
  refine ⟨rfl, by decide, by decide, by decide, rfl⟩

/-- C4: (1) re-resolving any node that is `__eq__`-equal to an already
resolved one (even one built independently) short-circuits on the cache:
it returns the very same handle and leaves the state — in particular the
backend invocation log — completely unchanged, so no backend type
constructor is re-invoked; (2) resolution preserves the memoization
invariant `GOOD` (the `created` list of keys that ever had a backend type
constructor invoked stays duplicate-free: at most one constructor call per
distinct node key) and never rebinds a cached key to a different handle;
(3) the fresh state satisfies the invariant. -/
theorem C4_memoization :
    (∀ (n m : Nat) (st : FFIState) (t₁ t₂ : CType) (h : Nat) (st' : FFIState),
        pyEq t₁ t₂ = true → resolve n st t₁ = (.ok h, st') →
        resolve (m + 1) st' t₂ = (.ok h, st')) ∧
    (∀ (n : Nat) (st : FFIState) (t : CType) (r : Except Err Nat) (st' : FFIState),
        GOOD st → resolve n st t = (r, st') →
        GOOD st' ∧ ∀ k v, lookupA st.cache k = some v → lookupA st'.cache k = some v) ∧
    GOOD initState := by
  refine ⟨?_, ?_, GOOD_initState⟩
  · intro n m st t₁ t₂ h st' hpy hres
    have hc := resolve_ok_cached n st t₁ h st' hres
    rw [cacheLook_congr st' hpy] at hc
    exact resolve_cacheHit m st' t₂ h hc
  · intro n st t r st' hg hres
    obtain ⟨hg', hm, -⟩ := resolve_good n st t r st' hres hg
    exact ⟨hg', hm⟩

/-- C7: (1) `ArrayType.__init__` stores its element wrapped as
`PointerType(element)`, for every element type and length (`None`
included); (2) the single dependency `prepare_backend_type` resolves before
finishing an array node is exactly `Pointer(element)`; (3) the backend's
`new_array_type` then receives that pointer handle together with the
length; (4) concretely, materializing `int[5]` (and the open array `int[]`)
runs exactly the shared pointer path: `new_primitive_type`,
`new_pointer_type`, then `new_array_type` on the pointer handle. -/
theorem C7_array_normalization :
    (∀ (e : CType) (l : Option Int), mkArrayType e l = .arrayT (.pointer e) l) ∧
    (∀ (n : Nat) (st : FFIState) (e : CType) (l : Option Int),
        prepareB (n + 1) st (mkArrayType e l) =
          (match resolve n st (.pointer e) with
           | (.ok h, st₁) => (.ok [h], st₁)
           | (.error er, st₁) => (.error er, st₁))) ∧
    (∀ (st : FFIState) (e : CType) (l : Option Int) (hp : Nat),
        cacheLook st (mkArrayType e l) = none →
        finishB st (mkArrayType e l) [hp] =
          (.ok st.nextHandle,
           { st with
              nextHandle := st.nextHandle + 1
              log := st.log ++ [.newArray hp l]
              created := pkey (mkArrayType e l) :: st.created })) ∧
    ((resolve 10 initState (mkArrayType (.primitive "int") (some 5))).1 = .ok 2 ∧
      (resolve 10 initState (mkArrayType (.primitive "int") (some 5))).2.log =
        [.newPrimitive "int", .newPointer 0, .newArray 1 (some 5)] ∧
      (resolve 10 initState (mkArrayType (.primitive "int") none)).2.log =
        [.newPrimitive "int", .newPointer 0, .newArray 1 none]) := by
  refine ⟨fun e l => rfl, fun n st e l => rfl, ?_, rfl, by decide, by decide⟩
  intro st e l hp hnone
  simp only [mkArrayType] at hnone ⊢
  simp only [finishB, hnone, newBackendType, freshBType]

/-- C10: a `StructOrUnion` node whose `fldtypes` is `None` (an opaque
forward declaration, which the constructor permits) is representable, but
resolving it raises the `TypeError` of iterating the absent field-type list
instead of returning its (already created) incomplete handle — both from an
arbitrary state in which the node is not yet cached, and concretely for an
opaque union from a fresh state. -/
theorem C10_opaque_not_resolvable :
    (∀ (n : Nat) (st : FFIState) (iu : Bool) (nm : String) (fns : Option (List String))
        (fbs : Option (List (Option Int))),
        cacheLook st (.structT iu nm fns .noneF fbs) = none →
        resolve (n + 2) st (.structT iu nm fns .noneF fbs) =
          (.error .noneFields, (structEnter st iu nm).2)) ∧
    (resolve 10 initState (.structT true "u" none .noneF none)).1 =
      .error .noneFields := by
  refine ⟨?_, by decide⟩
  intro n st iu nm fns fbs hnone
  simp only [resolve, hnone, prepareB]

/-- C5: `typeof` on a type-name string (1) first consults `_parsed_types`
under the exact string and returns the stored handle on a hit, with nothing
else happening; (2) on a miss it asks the parser for the node, resolves it
through `_get_cached_btype`, stores the handle under the name and returns
it; (3) consequently a second `typeof` of the same string after a
successful one returns the identical handle and changes nothing; (4)
concretely, `typeof "int"` twice from a fresh state yields handle 0 both
times, the second call a pure cache hit. -/
theorem C5_typeof_caching :
    (∀ (parse : String → CType) (fuel : Nat) (st : FFIState) (s : String) (h : Nat),
        lookupA st.parsedTypes s = some h → typeof parse fuel st s = (.ok h, st)) ∧
    (∀ (parse : String → CType) (fuel : Nat) (st : FFIState) (s : String),
        lookupA st.parsedTypes s = none →
        typeof parse fuel st s =
          (match resolve fuel st (parse s) with
           | (.ok bt, st₁) =>
               (.ok bt, { st₁ with parsedTypes := (s, bt) :: st₁.parsedTypes })
           | (.error e, st₁) => (.error e, st₁))) ∧
    (∀ (parse : String → CType) (fuel m : Nat) (st : FFIState) (s : String) (h : Nat)
        (st' : FFIState),
        typeof parse fuel st s = (.ok h, st') → typeof parse m st' s = (.ok h, st')) ∧
    ((typeof (fun _ => .primitive "int") 10 initState "int").1 = .ok 0 ∧
      typeof (fun _ => .primitive "int") 10
          (typeof (fun _ => .primitive "int") 10 initState "int").2 "int" =
        (.ok 0, (typeof (fun _ => .primitive "int") 10 initState "int").2)) := by
  refine ⟨?_, ?_, ?_, rfl, rfl⟩
  · intro parse fuel st s h hsome
    simp only [typeof, hsome]
  · intro parse fuel st s hnone
    simp only [typeof, hnone]
  · intro parse fuel m st s h st' hfirst
    simp only [typeof] at hfirst
    split at hfirst
    case _ bt hsome =>
      cases hfirst
      simp only [typeof, hsome]
    case _ hnone =>
      split at hfirst
      case _ bt st₁ heq =>
        cases hfirst
        simp [typeof, lookupA]
      case _ e st₁ heq =>
        cases hfirst

/-- C9: (1) `callback` with a non-invocable second argument raises
`TypeError` with the state completely untouched — the signature is never
parsed or resolved and the backend's trampoline constructor is never
invoked; (2) with an invocable argument the signature string is resolved
through `typeof` and the backend's `callback` constructor is invoked with
the resulting type handle and the callable; (3) a failure of the signature
resolution propagates unchanged. -/
theorem C9_callback_guard :
    (∀ (parse : String → CType) (fuel : Nat) (st : FFIState) (cdecl : String)
        (pycb : Nat), callback parse fuel st cdecl false pycb = (.error .typeError, st)) ∧
    (∀ (parse : String → CType) (fuel : Nat) (st : FFIState) (cdecl : String)
        (pycb bf : Nat) (st₁ : FFIState),
        typeof parse fuel st cdecl = (.ok bf, st₁) →
        callback parse fuel st cdecl true pycb =
          (.ok st₁.nextFn,
           { st₁ with
              nextFn := st₁.nextFn + 1
              log := st₁.log ++ [.newCallback bf pycb] })) ∧
    (∀ (parse : String → CType) (fuel : Nat) (st : FFIState) (cdecl : String)
        (pycb : Nat) (e : Err) (st₁ : FFIState),
        typeof parse fuel st cdecl = (.error e, st₁) →
        callback parse fuel st cdecl true pycb = (.error e, st₁)) := by
  refine ⟨?_, ?_, ?_⟩
  · intro parse fuel st cdecl pycb
    simp [callback]
  · intro parse fuel st cdecl pycb bf st₁ hty
    simp [callback, hty]
  · intro parse fuel st cdecl pycb e st₁ hty
    simp [callback, hty]

/-- Declarations for the concrete library-proxy run: one function `f` and
one variable `v` of type `int`. -/
def c6decls : List (String × CType) :=
  [("function f", .func (some "f") .nil .void false), ("variable v", .primitive "int")]

/-- A facade state with `c6decls` declared and `v`'s live memory holding 7. -/
def c6st : FFIState := { initState with decls := c6decls, mem := [("v", 7)] }

/-- C6: on one library proxy, (1) a name present in the proxy's
`function_cache` is answered from it: the identical cached callable, no
state change, no backend call; (2) the first access to a declared function
binds the symbol once (`load_function`) and caches the bound callable under
the name — so by (1) every later access returns that identical callable;
(3) an access to a declared variable resolves the type but returns the
value read from live memory at access time, and caches nothing —
`function_cache` is returned unchanged and a fresh `read_variable` is
logged; (4) re-reading after the underlying memory changed yields the new
value (with the cached type resolution); (5) a concrete run: two accesses
to `f` yield the same bound callable with the second a pure cache hit, and
two reads of `v` around a memory change yield 7 then 9. -/
theorem C6_binding_caching :
    (∀ (fuel : Nat) (st : FFIState) (lib : Option String) (fc : List (String × Nat))
        (name : String) (v : Nat),
        ¬(lib = none ∧ name = "errno") → lookupA fc name = some v →
        getattr fuel st lib fc name = (.ok (.fn v), st, fc)) ∧
    (∀ (fuel : Nat) (st : FFIState) (lib : Option String) (fc : List (String × Nat))
        (name : String) (tp : CType) (bt : Nat) (st₁ : FFIState),
        ¬(lib = none ∧ name = "errno") → lookupA fc name = none →
        lookupA st.decls ("function " ++ name) = some tp →
        resolve fuel st tp = (.ok bt, st₁) →
        getattr fuel st lib fc name =
            (.ok (.fn st₁.nextFn),
             { st₁ with
                nextFn := st₁.nextFn + 1
                log := st₁.log ++ [.loadFunction bt name] },
             (name, st₁.nextFn) :: fc) ∧
          st₁.nextFn = st.nextFn) ∧
    (∀ (fuel : Nat) (st : FFIState) (lib : Option String) (fc : List (String × Nat))
        (name : String) (tp : CType) (bt : Nat) (st₁ : FFIState),
        ¬(lib = none ∧ name = "errno") → lookupA fc name = none →
        lookupA st.decls ("function " ++ name) = none →
        lookupA st.decls ("variable " ++ name) = some tp →
        resolve fuel st tp = (.ok bt, st₁) →
        getattr fuel st lib fc name =
          (.ok (.val (readMem st name)),
           { st₁ with log := st₁.log ++ [.readVariable bt name] }, fc)) ∧
    (∀ (fuel : Nat) (st : FFIState) (lib : Option String) (fc : List (String × Nat))
        (name : String) (tp : CType) (bt : Nat) (w : Int),
        ¬(lib = none ∧ name = "errno") → lookupA fc name = none →
        lookupA st.decls ("function " ++ name) = none →
        lookupA st.decls ("variable " ++ name) = some tp →
        cacheLook st tp = some bt →
        getattr (fuel + 1) { st with mem := (name, w) :: st.mem } lib fc name =
          (.ok (.val w),
           { st with
              mem := (name, w) :: st.mem
              log := st.log ++ [.readVariable bt name] }, fc)) ∧
    ((getattr 10 c6st (some "m") [] "f").1 = .ok (.fn 0) ∧
      getattr 10 (getattr 10 c6st (some "m") [] "f").2.1 (some "m")
          (getattr 10 c6st (some "m") [] "f").2.2 "f" =
        (.ok (.fn 0), (getattr 10 c6st (some "m") [] "f").2.1,
          (getattr 10 c6st (some "m") [] "f").2.2) ∧
      (getattr 10 c6st (some "m") [] "v").1 = .ok (.val 7) ∧
      (getattr 10 c6st (some "m") [] "v").2.2 = [] ∧
      (getattr 10
          { (getattr 10 c6st (some "m") [] "v").2.1 with
             mem := ("v", 9) :: (getattr 10 c6st (some "m") [] "v").2.1.mem }
          (some "m") [] "v").1 = .ok (.val 9)) := by
  refine ⟨?_, ?_, ?_, ?_, rfl, rfl, rfl, by decide, rfl⟩
  · intro fuel st lib fc name v hg hsome
    simp only [getattr, if_neg hg, hsome]
  · intro fuel st lib fc name tp bt st₁ hg hfc hfn hres
    refine ⟨?_, (resolve_sameFFI fuel st tp _ _ hres).2.2.1⟩
    simp only [getattr, if_neg hg, hfc, hfn, hres]
  · intro fuel st lib fc name tp bt st₁ hg hfc hfn hvar hres
    have hmem : st₁.mem = st.mem := (resolve_sameFFI fuel st tp _ _ hres).2.1
    simp only [getattr, if_neg hg, hfc, hfn, hvar, hres, readMem, hmem]
  · intro fuel st lib fc name tp bt w hg hfc hfn hvar hcache
    have hres : resolve (fuel + 1) { st with mem := (name, w) :: st.mem } tp =
        (.ok bt, { st with mem := (name, w) :: st.mem }) :=
      resolve_cacheHit fuel _ tp bt hcache
    simp only [getattr, if_neg hg, hfc]
    have hd : ({ st with mem := (name, w) :: st.mem } : FFIState).decls = st.decls := rfl
    simp only [hd, hfn, hvar, hres, readMem, lookupA, if_pos rfl]
    simp

/-- C8: on the implicit default C-runtime proxy (`libname is None`), (1)
reading `errno` returns the backend's thread-local error code directly —
whatever the declaration table or the proxy's `function_cache` contain, no
symbol lookup happens and the only backend call is `get_errno`; (2)
assigning `errno` writes the error code directly, likewise bypassing the
declaration table; on every explicitly loaded library's proxy
(`libname = some l`), `errno` goes through the ordinary steps: (3) with no
declaration and no cached binding it is an unknown-symbol error; (4)
declared as a variable it is read from live memory through `read_variable`;
(5) assigned as a declared variable it is written to memory through
`write_variable`, the backend error code untouched. -/
theorem C8_errno_special_case :
    (∀ (fuel : Nat) (st : FFIState) (fc : List (String × Nat)),
        getattr fuel st none fc "errno" =
          (.ok (.val st.errnoVal), { st with log := st.log ++ [.getErrno] }, fc)) ∧
    (∀ (fuel : Nat) (st : FFIState) (v : Int),
        setattr fuel st none "errno" v =
          (.ok (), { st with errnoVal := v, log := st.log ++ [.setErrno v] })) ∧
    (∀ (fuel : Nat) (st : FFIState) (l : String) (fc : List (String × Nat)),
        lookupA fc "errno" = none →
        lookupA st.decls ("function " ++ "errno") = none →
        lookupA st.decls ("variable " ++ "errno") = none →
        getattr fuel st (some l) fc "errno" =
          (.error (.attributeError "errno"), st, fc)) ∧
    (∀ (fuel : Nat) (st : FFIState) (l : String) (fc : List (String × Nat))
        (tp : CType) (bt : Nat) (st₁ : FFIState),
        lookupA fc "errno" = none →
        lookupA st.decls ("function " ++ "errno") = none →
        lookupA st.decls ("variable " ++ "errno") = some tp →
        resolve fuel st tp = (.ok bt, st₁) →
        getattr fuel st (some l) fc "errno" =
          (.ok (.val (readMem st "errno")),
           { st₁ with log := st₁.log ++ [.readVariable bt "errno"] }, fc)) ∧
    (∀ (fuel : Nat) (st : FFIState) (l : String) (tp : CType) (bt : Nat)
        (st₁ : FFIState) (v : Int),
        lookupA st.decls ("variable " ++ "errno") = some tp →
        resolve fuel st tp = (.ok bt, st₁) →
        setattr fuel st (some l) "errno" v =
            (.ok (),
             { st₁ with
                mem := ("errno", v) :: st₁.mem
                log := st₁.log ++ [.writeVariable bt "errno" v] }) ∧
          st₁.errnoVal = st.errnoVal) := by
  have hg : ∀ l : String, ¬((some l : Option String) = none ∧ "errno" = "errno") := by
    intro l h
    cases h.1
  refine ⟨?_, ?_, ?_, ?_, ?_⟩
  · intro fuel st fc
    simp [getattr]
  · intro fuel st v
    simp [setattr]
  · intro fuel st l fc hfc hfn hvar
    unfold getattr
    rw [if_neg (hg l)]
    simp only [hfc, hfn, hvar]
  · intro fuel st l fc tp bt st₁ hfc hfn hvar hres
    have hmem : st₁.mem = st.mem := (resolve_sameFFI fuel st tp _ _ hres).2.1
    unfold getattr
    rw [if_neg (hg l)]
    simp only [hfc, hfn, hvar, hres, readMem, hmem]
  · intro fuel st l tp bt st₁ v hvar hres
    refine ⟨?_, (resolve_sameFFI fuel st tp _ _ hres).1⟩
    unfold setattr
    rw [if_neg (hg l)]
    simp only [hvar, hres]
